import Mathlib

/-!
Shallow embedding of the simple transport protocol implemented in
`sender.py` and `receiver.py` (a reliable file-transfer protocol over UDP
with a sliding window, cumulative ACKs, fast retransmit and timed close),
together with theorems settling the specification claims.

Conventions of the embedding:
* bytes are natural numbers, byte strings are `List ℕ`;
* Python `%` on possibly negative ints is `Int.emod`, which is Lean's `%`
  on `ℤ`; the divisions in the code only happen when the remainder is
  exactly 0, where all division conventions agree;
* Python lists of flags become `List Bool` (read with `List.getD`, write
  with `List.set`); Python dicts become association lists;
* each definition carries a reference to the source lines it embeds.
-/

namespace STP

/-- A wire segment as the sender emits it: type, seqno, payload bytes. -/
abbrev Seg := ℕ × ℕ × List ℕ

/-- A header-only segment as the receiver emits it (type, seqno). -/
abbrev Hdr := ℕ × ℕ

/-- Decoding of the 4-byte header, `struct.unpack('2H', msg[0:4])`
(sender.py lines 313-314, receiver.py lines 134-135): two 16-bit unsigned
little-endian fields.  `struct.unpack` raises on fewer than 4 bytes, which
is modelled by `none`. -/
def unpack2H (msg : List ℕ) : Option (ℕ × ℕ) :=
  match msg with
  | b0 :: b1 :: b2 :: b3 :: _ => some (b0 + 256 * b1, b2 + 256 * b3)
  | _ => none

/-- Number of 1000-byte partitions of the file, `read_file`
(sender.py lines 455-458). -/
def bufferSizeOf (dataSize : ℕ) : ℕ :=
  dataSize / 1000 + (if dataSize % 1000 ≠ 0 then 1 else 0)

/-- Partition of the file data into the sender's segment buffer,
`read_file` (sender.py lines 465-469): chunk `i` is bytes
`[1000*i, 1000*(i+1))`, the last chunk runs to the end of the data. -/
def partitionData (data : List ℕ) : List (List ℕ) :=
  (List.range (bufferSizeOf data.length)).map (fun i =>
    if i = bufferSizeOf data.length - 1 then data.drop (1000 * i)
    else (data.drop (1000 * i)).take 1000)

/-- First data sequence number, `DSN = (ISN + 1) % 2**16`
(sender.py line 70, receiver.py line 175). -/
def mkDSN (ISN : ℕ) : ℕ := (ISN + 1) % 65536

/-- Sequence number of the data segment at position `i`,
`(DSN + 1000 * i) % 2**16` (sender.py lines 216, 278). -/
def dataSeqno (DSN i : ℕ) : ℕ := (DSN + 1000 * i) % 65536

/-- Receiver-side inversion of a data seqno to a buffer position
(receiver.py lines 201-210): try wrap counts `i = 0..14`; on the first `i`
with `(seqno + 65536*i - DSN) % 1000 == 0` return the quotient.  `none`
when no wrap count matches (the Python variable `pos` then keeps its
initial value 0, see `receiverPos`). -/
def posSearchR (DSN seqno : ℕ) : Option ℤ :=
  (List.range 15).findSome? (fun (i : ℕ) =>
    if ((seqno : ℤ) + 65536 * i - DSN) % 1000 = 0 then
      some (((seqno : ℤ) + 65536 * i - DSN) / 1000)
    else none)

/-- The receiver's computed position for a data seqno, default 0
(receiver.py line 201). -/
def receiverPos (DSN seqno : ℕ) : ℤ := (posSearchR DSN seqno).getD 0

/-- Sender-side inversion of a cumulative-ACK seqno to a position
(sender.py lines 344-356): like `posSearchR` but with the extra
last-partial-segment case `seqno + 65536*i - DSN == data_size ↦
buffer_size`. -/
def posSearchS (DSN dataSize bufferSize seqno : ℕ) : Option ℤ :=
  (List.range 15).findSome? (fun (i : ℕ) =>
    if ((seqno : ℤ) + 65536 * i - DSN) % 1000 = 0 then
      some (((seqno : ℤ) + 65536 * i - DSN) / 1000)
    else if (seqno : ℤ) + 65536 * i - DSN = dataSize then
      some (bufferSize : ℤ)
    else none)

/-- The sender's computed position for an ACK seqno, default 0
(sender.py line 344). -/
def senderPos (DSN dataSize bufferSize seqno : ℕ) : ℤ :=
  (posSearchS DSN dataSize bufferSize seqno).getD 0

/-- Lookup in the receiver's reassembly buffer (a Python dict keyed by
position, receiver.py line 39). -/
def lookupPos : List (ℤ × List ℕ) → ℤ → Option (List ℕ)
  | [], _ => none
  | (k, v) :: rest, i => if i = k then some v else lookupPos rest i

/-- The cumulative-ACK walk (receiver.py lines 227-231): starting at
position `i` with `fuel` loop iterations remaining (the source uses
`range(0, 1000)`), sum payload lengths while positions are present. -/
def cumuWalk (buffer : List (ℤ × List ℕ)) : ℕ → ℕ → ℕ
  | _, 0 => 0
  | i, fuel + 1 =>
    match lookupPos buffer (i : ℤ) with
    | none => 0
    | some payload => payload.length + cumuWalk buffer (i + 1) fuel

/-- The cumulative ACK sequence number (receiver.py lines 225-233):
`DSN` plus the walked payload lengths, reduced mod `2^16`. -/
def cumuSeqno (DSN : ℕ) (buffer : List (ℤ × List ℕ)) : ℕ :=
  (DSN + cumuWalk buffer 0 1000) % 65536

/-- Receiver protocol state (receiver.py `__init__`, lines 39-64).
Fields that only matter for logging are omitted. -/
structure RState where
  DSN : ℕ
  buffer : List (ℤ × List ℕ)
  n_fin : ℕ
  established : Bool
  active : Bool
deriving DecidableEq, Repr

/-- Initial receiver state (receiver.py lines 39-64). -/
def receiverInit : RState :=
  { DSN := 0, buffer := [], n_fin := 0, established := false, active := true }

/-- The reassembly buffer after the receiver accepts a DATA segment
(receiver.py lines 214-222): store the payload under the computed
position unless that position is already present (duplicate). -/
def rDataBuffer (st : RState) (seqno : ℕ) (payload : List ℕ) : List (ℤ × List ℕ) :=
  let pos := receiverPos st.DSN seqno
  if (lookupPos st.buffer pos).isSome then st.buffer
  else st.buffer ++ [(pos, payload)]

/-- One iteration of the receiver's listener on a decoded segment
(receiver.py `fw_listener`, lines 157-256, with `flp = 0` so the loss
branch is never taken).  Returns the new state and the emitted
header-only segments (ACKs and RESETs; `send_msg` with `rlp = 0` always
puts them on the wire). -/
def rHandle (st : RState) (type seqno : ℕ) (payload : List ℕ) : RState × List Hdr :=
  if type = 4 then
    ({ st with active := false }, [])
  else if st.established = false then
    if type = 2 then
      ({ st with established := true, DSN := mkDSN seqno }, [(1, mkDSN seqno)])
    else
      ({ st with active := false }, [(4, 0)])
  else if type = 0 then
    if st.n_fin ≠ 0 then ({ st with active := false }, [(4, 0)])
    else
      let buf := rDataBuffer st seqno payload
      ({ st with buffer := buf }, [(1, cumuSeqno st.DSN buf)])
  else if type = 3 then
    ({ st with n_fin := st.n_fin + 1 }, [(1, (seqno + 1) % 65536)])
  else
    ({ st with active := false }, [(4, 0)])

/-- One datagram arrival at the receiver including header decoding
(receiver.py lines 131-136): a datagram shorter than 4 bytes makes
`struct.unpack` raise `struct.error`, modelled as `Except.error ()`;
the listener thread dies there. -/
def rListenStep (st : RState) (msg : List ℕ) : Except Unit (RState × List Hdr) :=
  match unpack2H msg with
  | none => Except.error ()
  | some (t, s) => Except.ok (rHandle st t s (msg.drop 4))

/-- The flush loop of `Receiver.run` (receiver.py lines 291-296): walk the
sorted key list `scope`; stop at the first position `i ≠ 0` whose
predecessor `i - 1` is not in `scope`; concatenate the buffered payloads
of the walked positions. -/
def flushLoop (scope : List ℤ) (buffer : List (ℤ × List ℕ)) : List ℤ → List ℕ
  | [] => []
  | i :: rest =>
    if i ≠ 0 ∧ ¬ (i - 1) ∈ scope then []
    else ((lookupPos buffer i).getD []) ++ flushLoop scope buffer rest

/-- The byte string the receiver writes to its output file at close
(receiver.py lines 289-300): flush over `sorted(self.buffer.keys())`
(modelled by insertion sort, which like Python's `sorted` produces an
ascending reordering of the keys). -/
def receiverOutput (st : RState) : List ℕ :=
  let scope := (st.buffer.map Prod.fst).insertionSort (fun a b => a ≤ b)
  flushLoop scope st.buffer scope

/-- Sender protocol state (sender.py `__init__`, lines 27-72, plus the
data fields initialised by `read_file`).  Window bounds are integers: on
an empty file `read_file` sets `win_ub = min(win_size - 1, -1) = -1`. -/
structure SState where
  ISN : ℕ
  DSN : ℕ
  dataSize : ℕ
  bufferSize : ℕ
  buffer : List (List ℕ)
  segmtRcved : List Bool
  segmtSent : List Bool
  segmtTimer : List Bool
  segmtAck : List (ℤ × ℕ)
  winLb : ℤ
  winUb : ℤ
  winSize : ℕ
  established : Bool
  sendingdata : Bool
  finished : Bool
  terminate : Bool
  active : Bool
  FSN : ℕ
  PSN : ℕ
  retransmitN : ℕ
  byteSent : ℕ
  dupAckN : ℕ
deriving DecidableEq, Repr

/-- Initial sender state for a given drawn ISN and window size
`win_size = max_win / 1000` (sender.py lines 35-72). -/
def senderInit (ISN W : ℕ) : SState :=
  { ISN := ISN, DSN := mkDSN ISN, dataSize := 0, bufferSize := 0,
    buffer := [], segmtRcved := [], segmtSent := [], segmtTimer := [],
    segmtAck := [], winLb := 0, winUb := 0, winSize := W,
    established := false, sendingdata := false, finished := false,
    terminate := false, active := true, FSN := 0, PSN := 0,
    retransmitN := 0, byteSent := 0, dupAckN := 0 }

/-- The `read_file` step (sender.py lines 442-477): record sizes,
partition the data, initialise the flag arrays and the initial upper
window bound `min(win_size - 1, buffer_size - 1)`. -/
def read_file (st : SState) (data : List ℕ) : SState :=
  let n := bufferSizeOf data.length
  { st with
    dataSize := data.length, bufferSize := n, buffer := partitionData data,
    segmtRcved := List.replicate n false, segmtSent := List.replicate n false,
    segmtTimer := List.replicate n false,
    winUb := min ((st.winSize : ℤ) - 1) ((n : ℤ) - 1) }

/-- Lookup in the sender's duplicate-ACK dict `segmtAck`
(sender.py line 43). -/
def lookupCnt : List (ℤ × ℕ) → ℤ → Option ℕ
  | [], _ => none
  | (k, v) :: rest, i => if i = k then some v else lookupCnt rest i

/-- In-place value update of the duplicate-ACK dict,
`self.segmtAck[pos] += 1` (sender.py line 377). -/
def updateCnt (l : List (ℤ × ℕ)) (k : ℤ) (v : ℕ) : List (ℤ × ℕ) :=
  l.map (fun p => if p.1 = k then (k, v) else p)

/-- The loop `for j in range(0, pos): segmtRcved[j] = 1`
(sender.py lines 391-392): set every flag at an index `< pos`. -/
def markUpTo : List Bool → ℤ → List Bool
  | [], _ => []
  | b :: rest, pos => (if 0 < pos then true else b) :: markUpTo rest (pos - 1)

/-- The body of the ACK handler in the data-transfer phase
(sender.py `rv_listener`, lines 342-417).  Returns the new state and the
emitted segments (only fast retransmissions emit here).  The final
`self.PSN = stp_seqno` of the listener loop is handled by the caller
`sHandleSeg`. -/
def handleDataAck (st : SState) (seqno : ℕ) : SState × List Seg :=
  let pos := senderPos st.DSN st.dataSize st.bufferSize seqno
  let st1 := if st.PSN ≠ seqno then { st with segmtAck := [] } else st
  if pos = st1.winLb then
    let st2 := { st1 with dupAckN := st1.dupAckN + 1 }
    if st2.PSN = seqno then
      match lookupCnt st2.segmtAck pos with
      | none => ({ st2 with segmtAck := (pos, 1) :: st2.segmtAck }, [])
      | some c =>
        let st3 := { st2 with segmtAck := updateCnt st2.segmtAck pos (c + 1) }
        if (c + 1) % 3 = 0 then
          ({ st3 with retransmitN := st3.retransmitN + 1 },
           [(0, (((st3.DSN : ℤ) + 1000 * pos) % 65536).toNat,
             st3.buffer.getD pos.toNat [])])
        else (st3, [])
    else (st2, [])
  else if st1.winLb < pos then
    let st2 := { st1 with segmtRcved := markUpTo st1.segmtRcved pos }
    if pos = st2.bufferSize then
      ({ st2 with sendingdata := false, FSN := seqno }, [])
    else
      ({ st2 with
         winUb := min (pos + st2.winSize - 1) ((st2.bufferSize : ℤ) - 1),
         winLb := pos }, [])
  else (st1, [])

/-- One iteration of the sender's listener on a decoded segment
(sender.py `rv_listener`, lines 320-438).  The Boolean in the result
records whether the loop body executed `break` (in which case the
trailing `self.PSN = stp_seqno` of line 438 is not reached and the
listener thread exits). -/
def sHandleSegCore (st : SState) (type seqno : ℕ) : SState × List Seg × Bool :=
  if type = 4 then ({ st with active := false }, [], true)
  else if st.established = false then
    if type = 1 ∧ seqno = st.DSN then
      ({ st with established := true, sendingdata := true }, [], false)
    else ({ st with terminate := true }, [], true)
  else if st.sendingdata then
    if type = 1 then
      ((handleDataAck st seqno).1, (handleDataAck st seqno).2, false)
    else ({ st with terminate := true }, [], true)
  else
    if type = 1 ∧ seqno = (st.FSN + 1) % 65536 then
      ({ st with finished := true }, [], false)
    else ({ st with terminate := true }, [], true)

/-- One listener iteration with the trailing `self.PSN = stp_seqno`
(sender.py line 438) applied on non-`break` paths. -/
def sHandleSeg (st : SState) (type seqno : ℕ) : SState × List Seg :=
  let r := sHandleSegCore st type seqno
  (if r.2.2 then r.1 else { r.1 with PSN := seqno }, r.2.1)

/-- One datagram arrival at the sender including header decoding
(sender.py lines 310-314): a datagram shorter than 4 bytes makes
`struct.unpack` raise, killing the listener thread
(`Except.error ()`). -/
def sListenStep (st : SState) (msg : List ℕ) : Except Unit (SState × List Seg) :=
  match unpack2H msg with
  | none => Except.error ()
  | some (t, s) => Except.ok (sHandleSeg st t s)

/-- Python `range(lb, ub + 1)` over integers. -/
def intRange (lb ub : ℤ) : List ℤ :=
  (List.range (ub + 1 - lb).toNat).map (fun k => lb + (k : ℤ))

/-- One iteration of the transmit scheduler's inner loop at position `i`
with window snapshot lower bound `lb` (sender.py `transeg_exec_hdlr`,
lines 253-291): an unsent position is marked sent and transmitted, and if
it is the snapshot lower bound a retransmission timer thread is started;
an already-sent position equal to the snapshot lower bound gets a timer
thread if none is armed.  The third component lists the positions for
which a timer thread was started in this iteration. -/
def scanStep (st : SState) (lb i : ℤ) : SState × List Seg × List ℕ :=
  let iN := i.toNat
  if st.segmtSent.getD iN false = false then
    let st1 := { st with segmtSent := st.segmtSent.set iN true,
                         byteSent := st.byteSent + (st.buffer.getD iN []).length }
    let armed := if i = lb then
        ({ st1 with segmtTimer := st1.segmtTimer.set iN true }, [iN])
      else (st1, ([] : List ℕ))
    (armed.1, [(0, dataSeqno st.DSN iN, st.buffer.getD iN [])], armed.2)
  else if i = lb ∧ st.segmtTimer.getD iN false = false then
    ({ st with segmtTimer := st.segmtTimer.set iN true }, [], [iN])
  else (st, [], [])

/-- The fold of `scanStep` over a list of positions with accumulated
output, the body of the transmit scheduler's inner loop. -/
def scanFold (lb : ℤ) (l : List ℤ) (acc : SState × List Seg) :
    SState × List Seg :=
  l.foldl (fun acc2 i =>
    let r := scanStep acc2.1 lb i
    (r.1, acc2.2 ++ r.2.1)) acc

/-- One pass of the transmit scheduler over the window snapshot
(sender.py lines 246-291): snapshot `(lb, ub)`, then run `scanStep` on
each position of `range(lb, ub + 1)`, collecting the emitted DATA
segments. -/
def scanOnce (st : SState) : SState × List Seg :=
  scanFold st.winLb (intRange st.winLb st.winUb) (st, [])

/-- The body of the retransmission timer for position `i` on wake
(sender.py `retranseg_exec`, lines 199-220): if the segment is still
unacknowledged, retransmit it; the timer flag and the other arrays are
untouched and no new thread is started. -/
def fireTimer (st : SState) (i : ℕ) : SState × List Seg :=
  if st.terminate ∨ st.active = false then (st, [])
  else if st.segmtRcved.getD i false = false then
    ({ st with retransmitN := st.retransmitN + 1 },
     [(0, dataSeqno st.DSN i, st.buffer.getD i [])])
  else (st, [])

/-- Deliver a list of sender segments to the receiver in order
(receiver.py `fw_listener` loop: segments are processed while
`self.active` holds), collecting the emitted ACK/RESET headers. -/
def deliverAll (r : RState) (segs : List Seg) : RState × List Hdr :=
  segs.foldl (fun acc seg =>
    if acc.1.active then
      let (r2, out) := rHandle acc.1 seg.1 seg.2.1 seg.2.2
      (r2, acc.2 ++ out)
    else acc) (r, [])

/-- Deliver a list of receiver headers to the sender's listener in order
(sender.py `rv_listener` loop: segments are processed while the thread is
alive, i.e. while `self.active` holds and no `break` has run; every
`break` path sets `terminate` or clears `active`). -/
def sProcessAcks (s : SState) (acks : List Hdr) : SState × List Seg :=
  acks.foldl (fun acc h =>
    if acc.1.active ∧ acc.1.terminate = false then
      let (s2, out) := sHandleSeg acc.1 h.1 h.2
      (s2, acc.2 ++ out)
    else acc) (s, [])

/-- One round of the lossless closed-loop execution: pending segments from
the previous round plus one scheduler pass travel to the receiver, whose
ACKs travel back and are processed by the sender's listener; segments the
listener emits (fast retransmissions) become the next round's pending
segments.  This is the canonical schedule of the two threaded peers on a
loopback channel with `flp = rlp = 0`. -/
def driverRound (s : SState) (r : RState) (pend : List Seg) :
    SState × RState × List Seg :=
  let (s1, outs) := scanOnce s
  let (r1, acks) := deliverAll r (pend ++ outs)
  let (s2, outs2) := sProcessAcks s1 acks
  (s2, r1, outs2)

/-- Iterate `driverRound` while the sender is still in the data-transfer
phase (`transeg_exec_hdlr`'s loop condition, sender.py lines 234-244). -/
def goRounds : ℕ → SState × RState × List Seg → SState × RState × List Seg
  | 0, t => t
  | fuel + 1, (s, r, pend) =>
    if s.sendingdata ∧ s.active ∧ s.terminate = false then
      goRounds fuel (driverRound s r pend)
    else (s, r, pend)

/-- Closed-loop lossless transfer of `data` with initial sequence number
`ISN` and window size `W` segments: handshake (SYN/ACK), `read_file`,
data-transfer rounds, then teardown (FIN/ACK).  Returns the byte string
the receiver writes at close, or `none` when the joint state machine
never reaches a state in which the receiver closes and writes. -/
def transferResult (ISN W : ℕ) (data : List ℕ) : Option (List ℕ) :=
  let s0 := senderInit ISN W
  let (r1, acks) := deliverAll receiverInit [(2, ISN, [])]
  let (s1, _) := sProcessAcks s0 acks
  if s1.established = false then none
  else
    let s2 := read_file s1 data
    let (s3, r3, pend) := goRounds (s2.bufferSize + 1) (s2, r1, [])
    if s3.sendingdata then none
    else if s3.terminate ∨ s3.active = false then none
    else
      let (r4, acks2) := deliverAll r3 (pend ++ [(3, s3.FSN, [])])
      let (s4, _) := sProcessAcks s3 acks2
      if s4.finished ∧ r4.n_fin ≠ 0 then some (receiverOutput r4) else none

/-- An event on the sender's send path: a segment transmission or a
timed sleep of `rto` milliseconds. -/
inductive TEvent where
  | snd (type seqno : ℕ)
  | slp
deriving DecidableEq, Repr

/-- The timed SYN executor `estab_exec` (sender.py lines 141-165) in the
environment where no matching ACK ever arrives (`self.established` stays
false, `terminate` and `active` undisturbed): each call sends SYN, sleeps
`rto`, and either gives up (at `i = 4`, setting `terminate`) or recurses
with `i + 1`.  The result is the event trace and the final value of
`terminate`; the fuel argument only renders the recursion structural and
is never exhausted when `i ≤ 4`. -/
def estab_exec (ISN : ℕ) : ℕ → ℕ → List TEvent × Bool
  | 0, _ => ([], false)
  | fuel + 1, i =>
    if i = 4 then ([.snd 2 ISN, .slp], true)
    else
      let (tr, t) := estab_exec ISN fuel (i + 1)
      (.snd 2 ISN :: .slp :: tr, t)

/-- The timed FIN executor `fin_exec` (sender.py lines 87-111) in the
environment where no matching ACK ever arrives; same shape as
`estab_exec` with FIN segments carrying `FSN`. -/
def fin_exec (FSN : ℕ) : ℕ → ℕ → List TEvent × Bool
  | 0, _ => ([], false)
  | fuel + 1, i =>
    if i = 4 then ([.snd 3 FSN, .slp], true)
    else
      let (tr, t) := fin_exec FSN fuel (i + 1)
      (.snd 3 FSN :: .slp :: tr, t)

/-- The `reset` routine (sender.py lines 531-536): emit a single RESET
with seqno 0, then close. -/
def resetRun : List TEvent := [.snd 4 0]

/-- Full event trace of the establishment phase when no ACK ever arrives:
`estab_exec` from `i = 1` (sender.py line 176), then the handler
`estab_hdlr` observes `terminate` and calls `reset` (lines 183-185). -/
def estabNoAckRun (ISN : ℕ) : List TEvent :=
  let (tr, term) := estab_exec ISN 8 1
  tr ++ (if term then resetRun else [])

/-- Full event trace of the finish phase when no ACK ever arrives
(sender.py lines 119-129). -/
def finNoAckRun (FSN : ℕ) : List TEvent :=
  let (tr, term) := fin_exec FSN 8 1
  tr ++ (if term then resetRun else [])

/-! ### Claim C1 -/

set_option maxRecDepth 8000

/-- C1.  With `flp = rlp = 0` the byte sequence the receiver writes at
close should equal the input for every file, every `max_win ≥ 1000` and
every `rto > 0`.  The code violates this: for a 536-byte file and
`ISN = 64999` (`DSN = 65000`), the final cumulative ACK is
`(65000 + 536) mod 2^16 = 0`, and the sender's inversion loop at wrap
count `i = 0` sees `(0 - 65000) % 1000 == 0` and decodes position
`-65 < win_lb`, a stale ACK it ignores forever (sender.py lines 350-356,
414-417); the transfer livelocks and the receiver never closes nor
writes.  The second conjunct shows the same closed-loop execution does
deliver a 1072-byte (two-segment) file byte-for-byte when `ISN = 100`, so the failure
is the code's, not the model's. -/
theorem final_ack_misdecode_livelock :
    transferResult 64999 1 (List.replicate 536 48) = none ∧
    transferResult 100 1 (List.replicate 1072 48) =
      some (List.replicate 1072 48) := by
  constructor <;> decide

/-! ### Claim C4 -/

/-- The sender state right after a successful handshake (with `ISN = 100`
and `max_win = 1000`) and `read_file` on an empty file. -/
def c4Sender : SState :=
  read_file
    (sProcessAcks (senderInit 100 1)
      (deliverAll receiverInit [(2, 100, [])]).2).1 []

/-- The receiver state after the same handshake. -/
def c4Receiver : RState := (deliverAll receiverInit [(2, 100, [])]).1

/-- C4.  The claim says that on an empty input file the sender sends no
DATA and proceeds directly to the finish phase, emitting FIN.  The code
instead hangs: after the handshake `sendingdata` is true
(sender.py line 330) and `read_file` on a 0-byte file produces
`buffer_size = 0` and window `(0, -1)`, so every pass of the transmit
scheduler scans an empty range, sends nothing, and no ACK can ever
arrive to clear `sendingdata` — the closed-loop state is a fixpoint of
`driverRound` and the loop of `transeg_exec_hdlr` (lines 234-291) never
exits, so `fin_hdlr` is never reached and no FIN is emitted. -/
theorem empty_file_sender_never_finishes :
    c4Sender.sendingdata = true ∧
    scanOnce c4Sender = (c4Sender, []) ∧
    (∀ n, goRounds n (c4Sender, c4Receiver, []) = (c4Sender, c4Receiver, [])) ∧
    transferResult 100 1 [] = none := by
  refine ⟨by decide, by decide, ?_, by decide⟩
  intro n
  induction n with
  | zero => rfl
  | succ n ih =>
    have hfix : driverRound c4Sender c4Receiver [] = (c4Sender, c4Receiver, []) := by
      decide
    show goRounds (n + 1) (c4Sender, c4Receiver, []) = _
    rw [goRounds, if_pos (by decide), hfix, ih]

/-! ### Claim C5 -/

/-- C5.  During handshake and teardown the sender transmits SYN
(respectively FIN) at most 4 times — one initial transmission plus 3
retransmissions, each separated by an `rto` sleep — and when the 4th
transmission receives no matching ACK it emits exactly one RESET with
seqno 0 and closes.  The event traces of `estab_exec` / `fin_exec`
started at `i = 1` in the no-ACK environment are exactly four
send-then-sleep pairs followed by the single RESET of `reset`. -/
theorem handshake_teardown_give_up_traces (ISN FSN : ℕ) :
    estabNoAckRun ISN =
      [.snd 2 ISN, .slp, .snd 2 ISN, .slp, .snd 2 ISN, .slp,
       .snd 2 ISN, .slp, .snd 4 0] ∧
    finNoAckRun FSN =
      [.snd 3 FSN, .slp, .snd 3 FSN, .slp, .snd 3 FSN, .slp,
       .snd 3 FSN, .slp, .snd 4 0] := by
  constructor <;> rfl

/-! ### Claim C8 -/

/-- C8.  The claim says a datagram shorter than 4 bytes is treated as a
protocol violation (RESET and close).  The code of both peers instead
calls `struct.unpack('2H', msg[0:4])` with fewer than 4 bytes, which
raises `struct.error` and kills the listener thread without emitting
anything (receiver.py lines 131-136, sender.py lines 310-314); the main
thread then spins forever.  Evaluated here on a 2-byte datagram at the
receiver and a 1-byte datagram at the sender. -/
theorem short_datagram_raises :
    rListenStep receiverInit [0, 0] = Except.error () ∧
    sListenStep (senderInit 5 2) [7] = Except.error () := by
  constructor <;> rfl

/-! ### Claim C7 -/

/-- The sender window invariant of the claim:
`0 ≤ lb ≤ ub < N` and `ub - lb + 1 ≤ W`. -/
def winInv (st : SState) : Prop :=
  0 ≤ st.winLb ∧ st.winLb ≤ st.winUb ∧ st.winUb < (st.bufferSize : ℤ) ∧
  st.winUb - st.winLb + 1 ≤ (st.winSize : ℤ)

instance (st : SState) : Decidable (winInv st) :=
  inferInstanceAs (Decidable (_ ∧ _ ∧ _ ∧ _))

/-- A nonempty file has at least one partition. -/
lemma bufferSizeOf_pos (k : ℕ) (hk : k ≠ 0) : 1 ≤ bufferSizeOf k := by
  unfold bufferSizeOf
  split_ifs with h <;> omega

/-- The duplicate-ACK branch and the stale branch of `handleDataAck`
leave the window untouched; the slide branch re-establishes the
invariant. -/
lemma handleDataAck_winInv (st : SState) (seqno : ℕ) (hinv : winInv st)
    (hW : 1 ≤ st.winSize)
    (hpos : senderPos st.DSN st.dataSize st.bufferSize seqno ≤ (st.bufferSize : ℤ)) :
    winInv (handleDataAck st seqno).1 := by
  obtain ⟨h1, h2, h3, h4⟩ := hinv
  have hWZ : (1 : ℤ) ≤ (st.winSize : ℤ) := by exact_mod_cast hW
  unfold handleDataAck
  dsimp only
  repeat' split
  all_goals try simp only [winInv] at *
  all_goals omega

/-- C7.  The window boundaries satisfy `0 ≤ lb ≤ ub < N` and
`ub - lb + 1 ≤ W` at window initialisation (sender.py line 477 together
with `win_lb = 0` from line 56), and every listener step — in particular
every window slide (lines 407-408) — preserves the invariant, provided
the window size is at least one segment (`max_win ≥ 1000`) and the
arriving ACK decodes to a position not beyond the file end (true of
every cumulative ACK the receiver produces). -/
theorem window_invariant_holds :
    (∀ ISN W data, 1 ≤ W → data ≠ [] →
      winInv (read_file (senderInit ISN W) data)) ∧
    (∀ st type seqno, winInv st → 1 ≤ st.winSize →
      senderPos st.DSN st.dataSize st.bufferSize seqno ≤ (st.bufferSize : ℤ) →
      winInv (sHandleSeg st type seqno).1) := by
  constructor
  · intro ISN W data hW hdata
    have hn : 1 ≤ bufferSizeOf data.length :=
      bufferSizeOf_pos data.length (by simpa using hdata)
    simp only [read_file, senderInit, winInv]
    have hWZ : (1 : ℤ) ≤ (W : ℤ) := by exact_mod_cast hW
    have hnZ : (1 : ℤ) ≤ (bufferSizeOf data.length : ℤ) := by exact_mod_cast hn
    omega
  · intro st type seqno hinv hW hpos
    have hda := handleDataAck_winInv st seqno hinv hW hpos
    unfold sHandleSeg sHandleSegCore
    dsimp only
    repeat' split
    all_goals try simp only [winInv] at *
    all_goals omega

/-- The sender state used to witness the preservation half of C7: a
one-segment file right after `read_file`. -/
def c7State : SState := read_file (senderInit 100 1) [48]

/-- Witness for C7: the hypotheses are satisfiable and the theorem
applies at a concrete state. -/
theorem window_invariant_holds_witness :
    ((1 : ℕ) ≤ 1 ∧ ([48] : List ℕ) ≠ [] ∧ winInv (read_file (senderInit 100 1) [48])) ∧
    (winInv c7State ∧ 1 ≤ c7State.winSize ∧
      senderPos c7State.DSN c7State.dataSize c7State.bufferSize 0 ≤ (c7State.bufferSize : ℤ) ∧
      winInv (sHandleSeg c7State 1 0).1) :=
  ⟨⟨le_refl 1, by decide, window_invariant_holds.1 100 1 [48] (le_refl 1) (by decide)⟩,
   ⟨by decide, by decide, by decide,
    window_invariant_holds.2 c7State 1 0 (by decide) (by decide) (by decide)⟩⟩

/-! ### Claim C2 -/

/-- Whether position `i` is present in the reassembly buffer. -/
def presentAt (buffer : List (ℤ × List ℕ)) (i : ℕ) : Bool :=
  (lookupPos buffer (i : ℤ)).isSome

/-- Specification-side description: `k` is the length of the longest
contiguous prefix of positions present in the buffer. -/
def longestContig (buffer : List (ℤ × List ℕ)) (k : ℕ) : Prop :=
  (∀ i, i < k → presentAt buffer i = true) ∧ presentAt buffer k = false

instance (buffer : List (ℤ × List ℕ)) (k : ℕ) : Decidable (longestContig buffer k) :=
  inferInstanceAs (Decidable (_ ∧ _))

/-- Specification-side description: total payload length of buffer
positions `0, …, k-1`. -/
def prefixBytes (buffer : List (ℤ × List ℕ)) (k : ℕ) : ℕ :=
  ((List.range k).map
    (fun (i : ℕ) => ((lookupPos buffer (i : ℤ)).getD []).length)).sum

/-- A position is present in the buffer exactly when it occurs among the
buffer's keys. -/
lemma lookupPos_isSome_iff (buffer : List (ℤ × List ℕ)) (i : ℤ) :
    (lookupPos buffer i).isSome = true ↔ i ∈ buffer.map Prod.fst := by
  induction buffer with
  | nil => simp [lookupPos]
  | cons hd tl ih =>
    obtain ⟨k, v⟩ := hd
    by_cases h : i = k <;> simp [lookupPos, h, ih]

/-- The cumulative walk with enough fuel computes the byte count of the
contiguous run of present positions starting at `j` and ending just
before the absent position `k`. -/
lemma cumuWalk_eq_sum (buffer : List (ℤ × List ℕ)) (k : ℕ)
    (hk : presentAt buffer k = false) :
    ∀ fuel j, j ≤ k → k ≤ j + fuel →
      (∀ i, j ≤ i → i < k → presentAt buffer i = true) →
      cumuWalk buffer j fuel =
        ((List.range' j (k - j)).map
          (fun (i : ℕ) => ((lookupPos buffer (i : ℤ)).getD []).length)).sum := by
  intro fuel
  induction fuel with
  | zero =>
    intro j hjk hkj _
    have : j = k := le_antisymm hjk (by omega)
    subst this
    simp [cumuWalk]
  | succ fuel ih =>
    intro j hjk hkj hpres
    rcases eq_or_lt_of_le hjk with heq | hlt
    · subst heq
      have hnone : lookupPos buffer ((j : ℕ) : ℤ) = none := by
        rcases h : lookupPos buffer ((j : ℕ) : ℤ) with _ | v
        · rfl
        · simp [presentAt, h] at hk
      simp [cumuWalk, hnone]
    · have hj : presentAt buffer j = true := hpres j le_rfl hlt
      simp only [presentAt, Option.isSome_iff_exists] at hj
      obtain ⟨payload, hpay⟩ := hj
      have hrec := ih (j + 1) (by omega) (by omega)
        (fun i hi hik => hpres i (by omega) hik)
      have hrange : k - j = (k - (j + 1)) + 1 := by omega
      rw [cumuWalk, hpay, hrec, hrange, List.range'_succ]
      simp [hpay]

/-- C2.  In the established phase with no FIN yet seen, the ACK the
receiver emits in response to a DATA segment carries exactly
`(DSN + sum of the payload lengths of the contiguous buffered prefix
from position 0) mod 2^16`, where the buffer is the reassembly buffer at
emission time (after the arriving segment was stored or discarded as a
duplicate).  The hypothesis that all buffered positions are below 1000
matches the source's walk bound `range(0, 1000)` (receiver.py line 227)
and holds in every reachable state because `receiverPos` never exceeds
`(65535 + 14·65536)/1000 = 983`. -/
theorem ack_seqno_is_contig_prefix_sum (st : RState) (seqno : ℕ)
    (payload : List ℕ) (k : ℕ)
    (hest : st.established = true) (hfin : st.n_fin = 0)
    (hkeys : ∀ p ∈ (rDataBuffer st seqno payload).map Prod.fst, p < 1000)
    (hk : longestContig (rDataBuffer st seqno payload) k) :
    (rHandle st 0 seqno payload).2 =
      [(1, (st.DSN + prefixBytes (rDataBuffer st seqno payload) k) % 65536)] := by
  obtain ⟨hpre, habs⟩ := hk
  have hk1000 : k ≤ 1000 := by
    by_contra hgt
    have h1000 : presentAt (rDataBuffer st seqno payload) 1000 = true :=
      hpre 1000 (by omega)
    simp only [presentAt] at h1000
    rw [lookupPos_isSome_iff] at h1000
    have := hkeys _ h1000
    omega
  have hwalk := cumuWalk_eq_sum (rDataBuffer st seqno payload) k habs 1000 0
    (by omega) (by omega) (fun i _ hik => hpre i hik)
  simp only [rHandle, hest, hfin, cumuSeqno]
  norm_num
  rw [hwalk]
  simp only [prefixBytes, Nat.sub_zero, List.range'_eq_map_range, List.map_map]
  simp [Function.comp_def]

/-- An established receiver state holding position 0, used to witness
C2: the DATA segment for position 1 (seqno `101 + 1000`) arrives. -/
def c2State : RState :=
  { DSN := 101, buffer := [((0 : ℤ), [7, 8])], n_fin := 0,
    established := true, active := true }

/-- Witness for C2: the hypotheses are satisfiable and the theorem
applies at a concrete state, giving the ACK `101 + 2 + 1 = 104`. -/
theorem ack_seqno_is_contig_prefix_sum_witness :
    (c2State.established = true ∧ c2State.n_fin = 0 ∧
      (∀ p ∈ (rDataBuffer c2State 1101 [9]).map Prod.fst, p < 1000) ∧
      longestContig (rDataBuffer c2State 1101 [9]) 2) ∧
    (rHandle c2State 0 1101 [9]).2 =
      [(1, (c2State.DSN + prefixBytes (rDataBuffer c2State 1101 [9]) 2) % 65536)] :=
  ⟨⟨rfl, rfl, by decide, by decide⟩,
   ack_seqno_is_contig_prefix_sum c2State 1101 [9] 2 rfl rfl
     (by decide) (by decide)⟩

/-! ### Claim C3 -/

/-- Iterated arrival of duplicate ACKs: the sender state after the
listener has processed `n` consecutive ACK segments carrying the same
sequence number `seqno`. -/
def dupIter (st : SState) (seqno : ℕ) : ℕ → SState
  | 0 => st
  | n + 1 => (sHandleSeg (dupIter st seqno n) 1 seqno).1

/-- Characterisation of the sender state after `n + 1` consecutive
duplicate ACKs for the window lower bound, together with the segments
emitted by the `n + 1`-st of them: the duplicate counter for the position
is exactly `n + 1`, and a fast retransmission is emitted exactly when the
counter becomes a multiple of 3 (sender.py lines 358-384). -/
lemma dupIter_characterisation (st : SState) (seqno : ℕ)
    (hest : st.established = true) (hsend : st.sendingdata = true)
    (hPSN : st.PSN = seqno) (hack : st.segmtAck = [])
    (hpos : senderPos st.DSN st.dataSize st.bufferSize seqno = st.winLb) :
    ∀ n, dupIter st seqno (n + 1) =
      { st with segmtAck := [(st.winLb, n + 1)],
                dupAckN := st.dupAckN + (n + 1),
                retransmitN := st.retransmitN + (n + 1) / 3 } ∧
      (sHandleSeg (dupIter st seqno n) 1 seqno).2 =
        (if (n + 1) % 3 = 0 then
          [(0, (((st.DSN : ℤ) + 1000 * st.winLb) % 65536).toNat,
            st.buffer.getD st.winLb.toNat [])]
        else []) := by
  rcases st with ⟨sISN, sDSN, sDS, sBS, sBuf, sRcv, sSnt, sTmr, sAck, sLb,
    sUb, sW, sEst, sSnd, sFin, sTerm, sAct, sFSN, sPSN, sRtx, sByt, sDup⟩
  dsimp only at hest hsend hPSN hack hpos ⊢
  subst hest hsend hPSN hack
  intro n
  induction n with
  | zero =>
    constructor
    · show (sHandleSeg _ 1 _).1 = _
      simp [dupIter, sHandleSeg, sHandleSegCore, handleDataAck, hpos, lookupCnt]
    · show (sHandleSeg _ 1 _).2 = _
      simp [dupIter, sHandleSeg, sHandleSegCore, handleDataAck, hpos, lookupCnt]
  | succ n ih =>
    obtain ⟨ihst, _⟩ := ih
    constructor
    · show (sHandleSeg (dupIter _ _ (n + 1)) 1 _).1 = _
      rw [ihst]
      simp [dupIter, sHandleSeg, sHandleSegCore, handleDataAck, hpos,
        lookupCnt, updateCnt]
      split_ifs with h3 <;> simp [SState.mk.injEq] <;> omega
    · show (sHandleSeg (dupIter _ _ (n + 1)) 1 _).2 = _
      rw [ihst]
      simp [dupIter, sHandleSeg, sHandleSegCore, handleDataAck, hpos,
        lookupCnt, updateCnt]
      split_ifs <;> rfl

/-- C3.  Starting from a state whose previously observed ACK already
carried `seqno` and whose duplicate-ACK dict was cleared when the seqno
last changed, with `seqno` decoding to the current window lower bound:
among the consecutive duplicate ACKs carrying `seqno`, exactly the 3rd,
6th, 9th, … each make the listener emit exactly one immediate DATA
retransmission for that position (and the others emit nothing), and no
duplicate ACK ever touches the retransmission-timer flags or the
window. -/
theorem third_dup_acks_fast_retransmit (st : SState) (seqno : ℕ)
    (hest : st.established = true) (hsend : st.sendingdata = true)
    (hPSN : st.PSN = seqno) (hack : st.segmtAck = [])
    (hpos : senderPos st.DSN st.dataSize st.bufferSize seqno = st.winLb)
    (n : ℕ) (hn : 1 ≤ n) :
    ((sHandleSeg (dupIter st seqno (n - 1)) 1 seqno).2 =
      if n % 3 = 0 then
        [(0, (((st.DSN : ℤ) + 1000 * st.winLb) % 65536).toNat,
          st.buffer.getD st.winLb.toNat [])]
      else []) ∧
    (dupIter st seqno n).segmtTimer = st.segmtTimer ∧
    (dupIter st seqno n).winLb = st.winLb ∧
    (dupIter st seqno n).winUb = st.winUb := by
  obtain ⟨m, rfl⟩ : ∃ m, n = m + 1 := ⟨n - 1, by omega⟩
  obtain ⟨hst, hemit⟩ :=
    dupIter_characterisation st seqno hest hsend hPSN hack hpos m
  refine ⟨?_, by rw [hst], by rw [hst], by rw [hst]⟩
  simpa using hemit

/-- A sender state in the data-transfer phase with a two-segment file
whose previous ACK carried seqno 101 (position 0, the window lower
bound), used to witness C3. -/
def c3State : SState :=
  { senderInit 100 2 with
    established := true, sendingdata := true, dataSize := 2000,
    bufferSize := 2, buffer := [[7], [8]],
    segmtRcved := [false, false], segmtSent := [true, true],
    segmtTimer := [true, false], winUb := 1, PSN := 101 }

/-- Witness for C3: the hypotheses are satisfiable and the theorem
applies at `n = 3`, where the third duplicate triggers exactly one fast
retransmission of the DATA segment for position 0 and leaves the timer
flags untouched. -/
theorem third_dup_acks_fast_retransmit_witness :
    (c3State.established = true ∧ c3State.sendingdata = true ∧
      c3State.PSN = 101 ∧ c3State.segmtAck = [] ∧
      senderPos c3State.DSN c3State.dataSize c3State.bufferSize 101 =
        c3State.winLb ∧ (1 : ℕ) ≤ 3) ∧
    (sHandleSeg (dupIter c3State 101 (3 - 1)) 1 101).2 =
      [(0, (((c3State.DSN : ℤ) + 1000 * c3State.winLb) % 65536).toNat,
        c3State.buffer.getD c3State.winLb.toNat [])] ∧
    (dupIter c3State 101 3).segmtTimer = c3State.segmtTimer :=
  ⟨⟨rfl, rfl, rfl, rfl, by decide, by decide⟩,
   by
     have h := third_dup_acks_fast_retransmit c3State 101 rfl rfl rfl rfl
       (by decide) 3 (by decide)
     exact ⟨by simpa using h.1, h.2.1⟩⟩

/-- Reachability support for the C2 hypothesis: the receiver's position
inversion never produces a value of 1000 or more (at wrap count at most
14 and a 16-bit seqno the quotient is at most 983), so every buffer key
is below 1000 and the walk bound `range(0, 1000)` of receiver.py line
227 is never the binding constraint. -/
lemma receiverPos_lt_1000 (DSN seqno : ℕ) (hs : seqno < 65536) :
    receiverPos DSN seqno < 1000 := by
  have hgen : ∀ (l : List ℕ), (∀ i ∈ l, i ≤ 14) →
      ∀ p, (l.findSome? (fun (i : ℕ) =>
        if ((seqno : ℤ) + 65536 * i - DSN) % 1000 = 0 then
          some (((seqno : ℤ) + 65536 * i - DSN) / 1000)
        else none)) = some p → p < 1000 := by
    intro l
    induction l with
    | nil => intro _ p hp; simp [List.findSome?] at hp
    | cons i t ih =>
      intro hbound p hp
      rw [List.findSome?_cons] at hp
      by_cases hc : ((seqno : ℤ) + 65536 * i - DSN) % 1000 = 0
      · rw [if_pos hc] at hp
        have hi : i ≤ 14 := hbound i (List.mem_cons_self i t)
        have hx : (seqno : ℤ) + 65536 * i - DSN ≤ 983039 := by
          have : (i : ℤ) ≤ 14 := by exact_mod_cast hi
          have hD : (0 : ℤ) ≤ (DSN : ℕ) := by positivity
          have hsZ : (seqno : ℤ) < 65536 := by exact_mod_cast hs
          nlinarith
        have hdiv : ((seqno : ℤ) + 65536 * i - DSN) / 1000 ≤ 983 := by
          have := Int.ediv_le_ediv (show (0 : ℤ) < 1000 by decide) hx
          simpa using this
        have hp2 : p = ((seqno : ℤ) + 65536 * i - DSN) / 1000 := by
          injection hp with h; exact h.symm
        omega
      · rw [if_neg hc] at hp
        exact ih (fun j hj => hbound j (List.mem_cons_of_mem i hj)) p hp
  unfold receiverPos posSearchR
  cases hres : (List.range 15).findSome? (fun (i : ℕ) =>
      if ((seqno : ℤ) + 65536 * i - DSN) % 1000 = 0 then
        some (((seqno : ℤ) + 65536 * i - DSN) / 1000)
      else none) with
  | none => simp [hres]
  | some p =>
    have := hgen (List.range 15)
      (fun i hi => by have := List.mem_range.mp hi; omega) p hres
    simp [hres, this]

/-- Reachability support for the C6 hypothesis: storing a DATA segment
preserves distinctness of the buffer keys (a duplicate position is
discarded, receiver.py lines 214-222). -/
lemma rDataBuffer_nodup (st : RState) (seqno : ℕ) (payload : List ℕ)
    (h : (st.buffer.map Prod.fst).Nodup) :
    ((rDataBuffer st seqno payload).map Prod.fst).Nodup := by
  unfold rDataBuffer
  dsimp only
  split_ifs with hpresent
  · exact h
  · rw [List.map_append]
    simp only [List.map_cons, List.map_nil]
    rw [List.nodup_append]
    refine ⟨h, List.nodup_singleton _, ?_⟩
    intro a ha hb
    simp only [List.mem_singleton] at hb
    subst hb
    rw [← lookupPos_isSome_iff] at ha
    rw [ha] at hpresent
    exact hpresent rfl

/-! ### Claim C6 -/

/-- A sorted duplicate-free list is strictly sorted. -/
lemma pairwise_lt_of_le_nodup (l : List ℤ)
    (hle : l.Pairwise (· ≤ ·)) (hnd : l.Nodup) : l.Pairwise (· < ·) :=
  (hle.and hnd).imp (fun h => lt_of_le_of_ne h.1 h.2)

/-- A strictly sorted list whose elements are all `≥ a`, that contains
`a, a+1, …, a+k-1` and not `a+k`, is that contiguous block followed by a
tail of elements `≥ a+k+1`. -/
lemma sorted_contig_decomp :
    ∀ (k : ℕ) (a : ℤ) (scope : List ℤ), scope.Pairwise (· < ·) →
      (∀ x ∈ scope, a ≤ x) →
      (∀ j : ℕ, j < k → a + (j : ℤ) ∈ scope) →
      (a + (k : ℤ)) ∉ scope →
      ∃ rest, scope = (List.range k).map (fun (j : ℕ) => a + (j : ℤ)) ++ rest ∧
        (∀ x ∈ rest, a + (k : ℤ) + 1 ≤ x) ∧ rest.Pairwise (· < ·) := by
  intro k
  induction k with
  | zero =>
    intro a scope hsort hge _ habs
    refine ⟨scope, by simp, ?_, hsort⟩
    intro x hx
    have h1 := hge x hx
    have h2 : x ≠ a := by
      intro h
      exact habs (by simpa [h] using hx)
    omega
  | succ k ih =>
    intro a scope hsort hge hmem habs
    have ha : a ∈ scope := by simpa using hmem 0 (by omega)
    rcases scope with _ | ⟨h₀, t⟩
    · simp at ha
    · have hh₀ : a = h₀ := by
        rcases List.mem_cons.mp ha with h | h
        · exact h
        · have hlt := (List.pairwise_cons.mp hsort).1 a h
          have := hge h₀ (List.mem_cons_self h₀ t)
          omega
      subst hh₀
      have htail := (List.pairwise_cons.mp hsort).2
      have hhead := (List.pairwise_cons.mp hsort).1
      obtain ⟨rest, ht, hrest, hrsort⟩ := ih (a + 1) t htail
        (fun x hx => by have := hhead x hx; omega)
        (fun j hj => by
          have hj1 : a + ((j + 1 : ℕ) : ℤ) ∈ a :: t := hmem (j + 1) (by omega)
          rcases List.mem_cons.mp hj1 with h | h
          · exfalso; push_cast at h; omega
          · push_cast at h
            convert h using 1
            ring)
        (by
          intro hmem2
          apply habs
          apply List.mem_cons_of_mem
          push_cast
          convert hmem2 using 1
          ring)
      refine ⟨rest, ?_, ?_, hrsort⟩
      · have hmapeq : (List.range (k + 1)).map (fun (j : ℕ) => a + (j : ℤ)) =
            a :: (List.range k).map (fun (j : ℕ) => a + 1 + (j : ℤ)) := by
          rw [List.range_succ_eq_map, List.map_cons, List.map_map]
          congr 1
          · push_cast; ring
          · apply List.map_congr_left
            intro j _
            simp only [Function.comp]
            push_cast
            ring
        rw [ht, hmapeq]
        simp
      · intro x hx
        have := hrest x hx
        push_cast at this ⊢
        omega

/-- Walking the flush loop over a block whose every element is 0 or has
its predecessor in `scope` concatenates the block's payloads and
continues. -/
lemma flushLoop_block (scope : List ℤ) (buffer : List (ℤ × List ℕ)) :
    ∀ (blk rest : List ℤ), (∀ i ∈ blk, i = 0 ∨ (i - 1) ∈ scope) →
      flushLoop scope buffer (blk ++ rest) =
        (blk.map (fun i => (lookupPos buffer i).getD [])).flatten ++
          flushLoop scope buffer rest := by
  intro blk
  induction blk with
  | nil => intro rest _; simp
  | cons i l ih =>
    intro rest hcond
    have hi : ¬ (i ≠ 0 ∧ ¬ (i - 1) ∈ scope) := by
      rcases hcond i (List.mem_cons_self i l) with h | h <;> simp [h]
    rw [List.cons_append, flushLoop, if_neg hi,
      ih rest (fun j hj => hcond j (List.mem_cons_of_mem i hj))]
    simp

/-- The flush loop stops immediately on the tail beyond the contiguous
block: its head has no predecessor in `scope`. -/
lemma flushLoop_tail_nil (buffer : List (ℤ × List ℕ)) (k : ℕ)
    (rest : List ℤ)
    (hge : ∀ x ∈ rest, (k : ℤ) + 1 ≤ x) (hsort : rest.Pairwise (· < ·)) :
    flushLoop ((List.range k).map (fun (j : ℕ) => (j : ℤ)) ++ rest)
      buffer rest = [] := by
  rcases rest with _ | ⟨e, t⟩
  · rfl
  · have he : (k : ℤ) + 1 ≤ e := hge e (List.mem_cons_self e t)
    have hbreak : e ≠ 0 ∧ ¬ (e - 1) ∈
        ((List.range k).map (fun (j : ℕ) => (j : ℤ)) ++ e :: t) := by
      constructor
      · omega
      · intro hmem
        rcases List.mem_append.mp hmem with h | h
        · obtain ⟨j, hj, hje⟩ := List.mem_map.mp h
          have := List.mem_range.mp hj
          omega
        · rcases List.mem_cons.mp h with h | h
          · omega
          · have := List.pairwise_cons.mp hsort
            have := this.1 (e - 1) h
            omega
    rw [flushLoop, if_pos hbreak]

/-- C6.  On receiver termination — reached normally via the 2·MSL close
timer or via RESET, the flush in `Receiver.run` runs either way
(receiver.py lines 286-300) — the bytes written to the output file are
exactly `buffer[0] ++ … ++ buffer[k-1]` for `[0, k)` the longest
contiguous prefix of positions present in the reassembly buffer; every
buffered position at or after the first gap contributes nothing.
Positions are non-negative and pairwise distinct (dict keys) in every
reachable buffer. -/
theorem flush_writes_contig_prefix (st : RState) (k : ℕ)
    (hpos : ∀ p ∈ st.buffer.map Prod.fst, 0 ≤ p)
    (hnodup : (st.buffer.map Prod.fst).Nodup)
    (hk : longestContig st.buffer k) :
    receiverOutput st =
      ((List.range k).map
        (fun (i : ℕ) => (lookupPos st.buffer (i : ℤ)).getD [])).flatten := by
  obtain ⟨hpre, habs⟩ := hk
  have hperm := List.perm_insertionSort (fun (a b : ℤ) => a ≤ b)
    (st.buffer.map Prod.fst)
  have hsortle : ((st.buffer.map Prod.fst).insertionSort
      (fun (a b : ℤ) => a ≤ b)).Pairwise (· ≤ ·) :=
    List.sorted_insertionSort (fun (a b : ℤ) => a ≤ b) (st.buffer.map Prod.fst)
  have hnd : ((st.buffer.map Prod.fst).insertionSort
      (fun (a b : ℤ) => a ≤ b)).Nodup := hperm.nodup_iff.mpr hnodup
  have hsort := pairwise_lt_of_le_nodup _ hsortle hnd
  obtain ⟨rest, hdecomp, hge, hrsort⟩ := sorted_contig_decomp k 0
    ((st.buffer.map Prod.fst).insertionSort (fun (a b : ℤ) => a ≤ b)) hsort
    (fun x hx => hpos x (hperm.mem_iff.mp hx))
    (fun j hj => by
      have := hpre j hj
      simp only [presentAt] at this
      rw [lookupPos_isSome_iff] at this
      simpa using hperm.mem_iff.mpr this)
    (by
      intro hmem
      have : ((k : ℤ) ∈ st.buffer.map Prod.fst) :=
        hperm.mem_iff.mp (by simpa using hmem)
      rw [← lookupPos_isSome_iff] at this
      simp only [presentAt] at habs
      rw [this] at habs
      cases habs)
  have hblock : ∀ (j : ℕ), (0 : ℤ) + (j : ℤ) = (j : ℤ) := fun j => by ring
  have hdecomp' : ((st.buffer.map Prod.fst).insertionSort
      (fun (a b : ℤ) => a ≤ b)) =
      (List.range k).map (fun (j : ℕ) => (j : ℤ)) ++ rest := by
    rw [hdecomp]
    congr 1
    exact List.map_congr_left (fun j _ => hblock j)
  have hge' : ∀ x ∈ rest, (k : ℤ) + 1 ≤ x := by
    intro x hx
    have := hge x hx
    omega
  simp only [receiverOutput]
  rw [hdecomp']
  rw [flushLoop_block _ _ _ _ (fun i hi => by
    obtain ⟨j, hj, hji⟩ := List.mem_map.mp hi
    rcases Nat.eq_zero_or_pos j with h0 | hpos'
    · left; omega
    · right
      apply List.mem_append_left
      refine List.mem_map.mpr ⟨j - 1, ?_, ?_⟩
      · have := List.mem_range.mp hj
        exact List.mem_range.mpr (by omega)
      · omega)]
  rw [flushLoop_tail_nil st.buffer k rest hge' hrsort]
  simp only [List.append_nil, List.map_map]
  rfl

/-- A closed receiver state holding positions 0, 1, 2 and 5 (first gap at
position 3), used to witness C6. -/
def c6State : RState :=
  { DSN := 0,
    buffer := [((0 : ℤ), [1, 2]), ((2 : ℤ), [5]), ((1 : ℤ), [3, 4]),
      ((5 : ℤ), [9])],
    n_fin := 1, established := true, active := false }

/-- Witness for C6: the hypotheses are satisfiable and the theorem
applies at a concrete buffer, where the flush writes positions 0, 1, 2
and discards position 5 beyond the gap. -/
theorem flush_writes_contig_prefix_witness :
    ((∀ p ∈ c6State.buffer.map Prod.fst, 0 ≤ p) ∧
      (c6State.buffer.map Prod.fst).Nodup ∧ longestContig c6State.buffer 3) ∧
    receiverOutput c6State =
      ((List.range 3).map
        (fun (i : ℕ) => (lookupPos c6State.buffer (i : ℤ)).getD [])).flatten :=
  ⟨⟨by decide, by decide, by decide⟩,
   flush_writes_contig_prefix c6State 3 (by decide) (by decide) (by decide)⟩

/-! ### Claim C9 -/

/-- A 16-bit reduction of an integer, converted back to a natural
number, is below `2^16`. -/
lemma emod_toNat_lt (x : ℤ) : ((x % 65536).toNat) < 65536 := by
  have h1 := Int.emod_lt_of_pos x (show (0 : ℤ) < 65536 by decide)
  have h2 := Int.emod_nonneg x (show (65536 : ℤ) ≠ 0 by decide)
  omega

/-- All segments in a list carry 16-bit sequence numbers. -/
def segOk (l : List Seg) : Prop := ∀ m ∈ l, m.2.1 < 65536

/-- A single scheduler iteration only emits segments with 16-bit
sequence numbers. -/
lemma scanStep_seqno_lt (st : SState) (lb i : ℤ) :
    ∀ m ∈ (scanStep st lb i).2.1, m.2.1 < 65536 := by
  intro m hm
  unfold scanStep at hm
  dsimp only at hm
  cases h1 : st.segmtSent.getD i.toNat false with
  | false =>
    rw [h1] at hm
    simp at hm
    subst hm
    exact Nat.mod_lt _ (by decide)
  | true =>
    rw [h1] at hm
    simp only [apply_ite
      (fun t : SState × List Seg × List ℕ => t.2.1)] at hm
    simp at hm

/-- Segments accumulated by the transmit scheduler's fold all carry
16-bit sequence numbers. -/
lemma scanFold_seqno_lt (lb : ℤ) :
    ∀ (l : List ℤ) (acc : SState × List Seg),
      (∀ m ∈ acc.2, m.2.1 < 65536) →
      ∀ m ∈ (scanFold lb l acc).2, m.2.1 < 65536 := by
  intro l
  induction l with
  | nil => intro acc hacc m hm; exact hacc m hm
  | cons i t ih =>
    intro acc hacc m hm
    rw [scanFold, List.foldl_cons] at hm
    refine ih _ ?_ m hm
    intro m2 hm2
    dsimp only at hm2
    rcases List.mem_append.mp hm2 with h | h
    · exact hacc m2 h
    · exact scanStep_seqno_lt acc.1 lb i m2 h

/-- C9.  Every sequence number either peer hands to the wire encoder is
in `[0, 2^16)`: every segment the receiver's listener emits, every fast
retransmission, every scheduled DATA segment and every timer-driven
retransmission carries a seqno already reduced mod `2^16`; the header
decoder only produces 16-bit values (so `DSN`, `FSN` and `PSN` derived
from received seqnos are in range); and with the ISN drawn from
`[0, 2^16)` (sender.py line 69) the SYN, FIN and RESET transmissions of
the handshake and teardown are in range as well. -/
theorem emitted_seqnos_are_16bit :
    (∀ st type seqno payload, ∀ m ∈ (rHandle st type seqno payload).2,
      m.2 < 65536) ∧
    (∀ st type seqno, ∀ m ∈ (sHandleSeg st type seqno).2, m.2.1 < 65536) ∧
    (∀ st, ∀ m ∈ (scanOnce st).2, m.2.1 < 65536) ∧
    (∀ st i, ∀ m ∈ (fireTimer st i).2, m.2.1 < 65536) ∧
    (∀ msg t s, unpack2H msg = some (t, s) → (∀ b ∈ msg, b < 256) →
      t < 65536 ∧ s < 65536) ∧
    (∀ ISN, ISN < 65536 →
      ∀ e ∈ estabNoAckRun ISN, ∀ t s, e = TEvent.snd t s → s < 65536) ∧
    (∀ FSN, FSN < 65536 →
      ∀ e ∈ finNoAckRun FSN, ∀ t s, e = TEvent.snd t s → s < 65536) := by
  refine ⟨?_, ?_, ?_, ?_, ?_, ?_, ?_⟩
  · intro st type seqno payload m hm
    unfold rHandle at hm
    repeat' split at hm
    all_goals first
      | exact absurd hm (List.not_mem_nil m)
      | (simp only [List.mem_singleton] at hm; subst hm;
         first
           | exact Nat.mod_lt _ (by decide)
           | decide)
  · intro st type seqno m hm
    have hda : segOk (handleDataAck st seqno).2 := by
      unfold handleDataAck
      dsimp only
      repeat' split
      all_goals intro m2 hm2
      all_goals first
        | exact absurd hm2 (List.not_mem_nil m2)
        | (simp only [List.mem_singleton] at hm2; subst hm2;
           exact emod_toNat_lt _)
    have hcore : segOk (sHandleSegCore st type seqno).2.1 := by
      unfold sHandleSegCore
      repeat' split
      all_goals first
        | exact hda
        | (intro m2 hm2; exact absurd hm2 (List.not_mem_nil m2))
    exact hcore m hm
  · intro st m hm
    exact scanFold_seqno_lt st.winLb _ _ (by simp) m hm
  · intro st i m hm
    unfold fireTimer at hm
    repeat' split at hm
    all_goals first
      | exact absurd hm (List.not_mem_nil m)
      | (simp only [List.mem_singleton] at hm; subst hm;
         exact Nat.mod_lt _ (by decide))
  · intro msg t s h hb
    rcases msg with _ | ⟨b0, _ | ⟨b1, _ | ⟨b2, _ | ⟨b3, rest⟩⟩⟩⟩ <;>
      simp [unpack2H] at h
    obtain ⟨ht, hs⟩ := h
    have h0 : b0 < 256 := hb b0 (by simp)
    have h1 : b1 < 256 := hb b1 (by simp)
    have h2 : b2 < 256 := hb b2 (by simp)
    have h3 : b3 < 256 := hb b3 (by simp)
    omega
  · intro ISN hISN e he t s hts
    have htr : estabNoAckRun ISN =
        [.snd 2 ISN, .slp, .snd 2 ISN, .slp, .snd 2 ISN, .slp,
         .snd 2 ISN, .slp, .snd 4 0] := rfl
    rw [htr] at he
    subst hts
    simp at he
    rcases he with ⟨_, h⟩ | ⟨_, h⟩ <;> omega
  · intro FSN hFSN e he t s hts
    have htr : finNoAckRun FSN =
        [.snd 3 FSN, .slp, .snd 3 FSN, .slp, .snd 3 FSN, .slp,
         .snd 3 FSN, .slp, .snd 4 0] := rfl
    rw [htr] at he
    subst hts
    simp at he
    rcases he with ⟨_, h⟩ | ⟨_, h⟩ <;> omega

/-- Witness for C9: the theorem applies to the ACK the receiver emits
for a SYN with seqno 100, whose seqno 101 is indeed a 16-bit value. -/
theorem emitted_seqnos_are_16bit_witness :
    ((1, 101) ∈ (rHandle receiverInit 2 100 []).2) ∧ (101 : ℕ) < 65536 :=
  ⟨by decide,
   emitted_seqnos_are_16bit.1 receiverInit 2 100 [] (1, 101) (by decide)⟩

/-! ### Claim C10 -/

/-- An event on the sender affecting its per-segment state: one transmit
scheduler iteration at position `i` with window snapshot lower bound
`lb` (sender.py lines 253-291), one listener iteration (lines 306-438),
or one retransmission-timer wake for position `i` (lines 199-220). -/
inductive SEv where
  | scan (lb i : ℤ)
  | ack (type seqno : ℕ)
  | fire (i : ℕ)
deriving DecidableEq, Repr

/-- Apply one event; the second component lists the positions for which
a retransmission-timer thread was started (`Thread(...).start()` at
sender.py lines 274 and 290). -/
def applyEv (st : SState) : SEv → SState × List ℕ
  | .scan lb i => ((scanStep st lb i).1, (scanStep st lb i).2.2)
  | .ack t s => ((sHandleSeg st t s).1, [])
  | .fire i => ((fireTimer st i).1, [])

/-- Run a sequence of events, collecting every timer-thread start. -/
def runEv (st : SState) : List SEv → SState × List ℕ
  | [] => (st, [])
  | e :: evs =>
    ((runEv (applyEv st e).1 evs).1,
     (applyEv st e).2 ++ (runEv (applyEv st e).1 evs).2)

/-- Reading an updated flag array at the updated index. -/
lemma getD_set_self : ∀ (l : List Bool) (i : ℕ) (b : Bool), i < l.length →
    (l.set i b).getD i false = b
  | [], i, b, h => absurd h (by simp)
  | a :: l, 0, b, _ => rfl
  | a :: l, i + 1, b, h => getD_set_self l i b (by simpa using h)

/-- Reading an updated flag array away from the updated index. -/
lemma getD_set_ne : ∀ (l : List Bool) (i j : ℕ), i ≠ j → ∀ (b : Bool),
    (l.set i b).getD j false = l.getD j false
  | [], _, _, _, _ => rfl
  | a :: l, 0, 0, h, _ => absurd rfl h
  | a :: l, 0, j + 1, _, _ => rfl
  | a :: l, i + 1, 0, _, _ => rfl
  | a :: l, i + 1, j + 1, h, b => getD_set_ne l i j (fun hh => h (by omega)) b

/-- The listener never touches the `segmtSent` and `segmtTimer` arrays:
`handleDataAck` part (sender.py lines 342-417 write only `segmtAck`,
`segmtRcved`, the window bounds and counters). -/
lemma handleDataAck_flags (st : SState) (seqno : ℕ) :
    (handleDataAck st seqno).1.segmtSent = st.segmtSent ∧
    (handleDataAck st seqno).1.segmtTimer = st.segmtTimer := by
  constructor <;> (unfold handleDataAck; dsimp only; repeat' split)
  all_goals rfl

/-- The listener never touches the `segmtSent` and `segmtTimer` arrays
(sender.py lines 320-438). -/
lemma sHandleSeg_flags (st : SState) (type seqno : ℕ) :
    (sHandleSeg st type seqno).1.segmtSent = st.segmtSent ∧
    (sHandleSeg st type seqno).1.segmtTimer = st.segmtTimer := by
  have hda := handleDataAck_flags st seqno
  constructor <;> (unfold sHandleSeg sHandleSegCore; dsimp only; repeat' split)
  all_goals simp_all

/-- A timer wake never touches any flag array (sender.py lines 199-220
only retransmit and recurse). -/
lemma fireTimer_flags (st : SState) (i : ℕ) :
    (fireTimer st i).1.segmtSent = st.segmtSent ∧
    (fireTimer st i).1.segmtTimer = st.segmtTimer := by
  constructor <;> (unfold fireTimer; repeat' split)
  all_goals rfl

/-- Characterisation of one scheduler iteration: an unsent position is
marked sent, arms a timer exactly when it is the snapshot lower bound;
a sent position arms one exactly when it is the snapshot lower bound
with no timer armed; flags are only ever set, never cleared. -/
lemma scanStep_char (st : SState) (lb i : ℤ) :
    (st.segmtSent.getD i.toNat false = false →
      (scanStep st lb i).1.segmtSent = st.segmtSent.set i.toNat true ∧
      (scanStep st lb i).1.segmtTimer =
        (if i = lb then st.segmtTimer.set i.toNat true else st.segmtTimer) ∧
      (scanStep st lb i).2.2 = (if i = lb then [i.toNat] else [])) ∧
    (st.segmtSent.getD i.toNat false = true →
      (scanStep st lb i).1.segmtSent = st.segmtSent ∧
      (scanStep st lb i).1.segmtTimer =
        (if i = lb ∧ st.segmtTimer.getD i.toNat false = false
          then st.segmtTimer.set i.toNat true else st.segmtTimer) ∧
      (scanStep st lb i).2.2 =
        (if i = lb ∧ st.segmtTimer.getD i.toNat false = false
          then [i.toNat] else [])) := by
  unfold scanStep
  dsimp only
  constructor
  · intro h
    rw [h, if_pos rfl]
    split_ifs with harm <;> exact ⟨rfl, rfl, rfl⟩
  · intro h
    rw [h, if_neg (by decide)]
    split_ifs with harm <;> exact ⟨rfl, rfl, rfl⟩

/-- Invariant induction for C10: running any event sequence from a state
whose armed-timer flag for `p` implies its sent flag, the number of
timer threads started for `p` plus the already-armed indicator is at
most one, and afterwards the flag for `p` is set iff a thread was
started or the flag was already set (the flag is never cleared). -/
lemma runEv_spawn_inv (p : ℕ) :
    ∀ (evs : List SEv) (st : SState),
      st.segmtSent.length = st.segmtTimer.length →
      (∀ lb i, SEv.scan lb i ∈ evs → i.toNat < st.segmtSent.length) →
      (st.segmtTimer.getD p false = true →
        st.segmtSent.getD p false = true) →
      ((runEv st evs).2.count p +
        (if st.segmtTimer.getD p false then 1 else 0) ≤ 1) ∧
      ((runEv st evs).1.segmtTimer.getD p false = true ↔
        ((runEv st evs).2.count p = 1 ∨
          st.segmtTimer.getD p false = true)) := by
  intro evs
  induction evs with
  | nil =>
    intro st _ _ _
    constructor
    · simp only [runEv, List.count_nil]
      split <;> simp
    · simp [runEv]
  | cons e evs ih =>
    intro st hlen hscan hinv
    have hscan' : ∀ lb2 i2, SEv.scan lb2 i2 ∈ evs →
        i2.toNat < st.segmtSent.length :=
      fun lb2 i2 hmem => hscan lb2 i2 (List.mem_cons_of_mem e hmem)
    cases e with
    | ack t s =>
      obtain ⟨hS, hT⟩ := sHandleSeg_flags st t s
      have IH := ih (sHandleSeg st t s).1 (by rw [hS, hT]; exact hlen)
        (by rw [hS]; exact hscan') (by rw [hS, hT]; exact hinv)
      rw [hT] at IH
      simpa [runEv, applyEv] using IH
    | fire i =>
      obtain ⟨hS, hT⟩ := fireTimer_flags st i
      have IH := ih (fireTimer st i).1 (by rw [hS, hT]; exact hlen)
        (by rw [hS]; exact hscan') (by rw [hS, hT]; exact hinv)
      rw [hT] at IH
      simpa [runEv, applyEv] using IH
    | scan lb i =>
      have hlen_i : i.toNat < st.segmtSent.length :=
        hscan lb i (List.mem_cons_self _ _)
      have hlen_t : i.toNat < st.segmtTimer.length := by omega
      have hchar := scanStep_char st lb i
      by_cases hsent : st.segmtSent.getD i.toNat false = false
      · obtain ⟨hS, hT, hsp⟩ := hchar.1 hsent
        have hlen' : (scanStep st lb i).1.segmtSent.length =
            (scanStep st lb i).1.segmtTimer.length := by
          rw [hS, hT]
          by_cases harm0 : i = lb
          · rw [if_pos harm0]; simpa [List.length_set] using hlen
          · rw [if_neg harm0]; simpa [List.length_set] using hlen
        have hscan'' : ∀ lb2 i2, SEv.scan lb2 i2 ∈ evs →
            i2.toNat < (scanStep st lb i).1.segmtSent.length := by
          rw [hS]
          simpa [List.length_set] using hscan'
        by_cases harm : i = lb
        · rw [if_pos harm] at hT hsp
          by_cases hp : i.toNat = p
          · subst hp
            have htimer_old : st.segmtTimer.getD i.toNat false = false := by
              cases hval : st.segmtTimer.getD i.toNat false
              · rfl
              · have := hinv hval
                rw [hsent] at this
                exact absurd this (by decide)
            have hT' : (scanStep st lb i).1.segmtTimer.getD i.toNat false =
                true := by
              rw [hT]; exact getD_set_self _ _ _ hlen_t
            have hS' : (scanStep st lb i).1.segmtSent.getD i.toNat false =
                true := by
              rw [hS]; exact getD_set_self _ _ _ hlen_i
            obtain ⟨IH1, IH2⟩ := ih (scanStep st lb i).1 hlen' hscan''
              (fun _ => hS')
            rw [hT'] at IH1
            norm_num at IH1
            constructor
            · simp only [runEv, applyEv, hsp, List.count_append,
                List.count_cons, List.count_nil, htimer_old]
              first
                | omega
                | (simp; omega)
            · rw [show (runEv st (SEv.scan lb i :: evs)).1 =
                  (runEv (scanStep st lb i).1 evs).1 from rfl]
              rw [IH2]
              constructor
              · intro _
                left
                simp only [runEv, applyEv, hsp, List.count_append,
                  List.count_cons, List.count_nil]
                first
                  | omega
                  | (simp; omega)
              · intro _
                right
                exact hT'
          · have hT' : (scanStep st lb i).1.segmtTimer.getD p false =
                st.segmtTimer.getD p false := by
              rw [hT]; exact getD_set_ne _ _ _ hp _
            have hS' : (scanStep st lb i).1.segmtSent.getD p false =
                st.segmtSent.getD p false := by
              rw [hS]; exact getD_set_ne _ _ _ hp _
            have IH := ih (scanStep st lb i).1 hlen' hscan''
              (by rw [hS', hT']; exact hinv)
            rw [hT'] at IH
            have hunf : (runEv st (SEv.scan lb i :: evs)).2 =
                (scanStep st lb i).2.2 ++
                  (runEv (scanStep st lb i).1 evs).2 := rfl
            have hcnt : (runEv st (SEv.scan lb i :: evs)).2.count p =
                (runEv (scanStep st lb i).1 evs).2.count p := by
              rw [hunf, hsp, List.count_append]
              simp [List.count_cons, Ne.symm hp]
            have hfst : (runEv st (SEv.scan lb i :: evs)).1 =
                (runEv (scanStep st lb i).1 evs).1 := rfl
            rw [hcnt, hfst]
            exact IH
        · rw [if_neg harm] at hT hsp
          have IH := ih (scanStep st lb i).1 hlen' hscan''
            (by
              intro hTp
              rw [hT] at hTp
              by_cases hp : i.toNat = p
              · rw [hS, ← hp]
                exact getD_set_self _ _ _ hlen_i
              · rw [hS, getD_set_ne _ _ _ hp]
                exact hinv hTp)
          rw [hT] at IH
          have hunf : (runEv st (SEv.scan lb i :: evs)).2 =
              (scanStep st lb i).2.2 ++
                (runEv (scanStep st lb i).1 evs).2 := rfl
          have hcnt : (runEv st (SEv.scan lb i :: evs)).2.count p =
              (runEv (scanStep st lb i).1 evs).2.count p := by
            rw [hunf, hsp]
            simp
          have hfst : (runEv st (SEv.scan lb i :: evs)).1 =
              (runEv (scanStep st lb i).1 evs).1 := rfl
          rw [hcnt, hfst]
          exact IH
      · have hsent' : st.segmtSent.getD i.toNat false = true := by
          cases hval : st.segmtSent.getD i.toNat false
          · exact absurd hval hsent
          · rfl
        obtain ⟨hS, hT, hsp⟩ := hchar.2 hsent'
        have hlen' : (scanStep st lb i).1.segmtSent.length =
            (scanStep st lb i).1.segmtTimer.length := by
          rw [hS, hT]
          by_cases harm0 : i = lb ∧ st.segmtTimer.getD i.toNat false = false
          · rw [if_pos harm0]; simpa [List.length_set] using hlen
          · rw [if_neg harm0]; exact hlen
        have hscan'' : ∀ lb2 i2, SEv.scan lb2 i2 ∈ evs →
            i2.toNat < (scanStep st lb i).1.segmtSent.length := by
          rw [hS]
          exact hscan'
        by_cases harm : i = lb ∧ st.segmtTimer.getD i.toNat false = false
        · rw [if_pos harm] at hT hsp
          by_cases hp : i.toNat = p
          · subst hp
            have htimer_old := harm.2
            have hT' : (scanStep st lb i).1.segmtTimer.getD i.toNat false =
                true := by
              rw [hT]; exact getD_set_self _ _ _ hlen_t
            have hS' : (scanStep st lb i).1.segmtSent.getD i.toNat false =
                true := by
              rw [hS]; exact hsent'
            obtain ⟨IH1, IH2⟩ := ih (scanStep st lb i).1 hlen' hscan''
              (fun _ => hS')
            rw [hT'] at IH1
            norm_num at IH1
            constructor
            · simp only [runEv, applyEv, hsp, List.count_append,
                List.count_cons, List.count_nil, htimer_old]
              first
                | omega
                | (simp; omega)
            · rw [show (runEv st (SEv.scan lb i :: evs)).1 =
                  (runEv (scanStep st lb i).1 evs).1 from rfl]
              rw [IH2]
              constructor
              · intro _
                left
                simp only [runEv, applyEv, hsp, List.count_append,
                  List.count_cons, List.count_nil]
                first
                  | omega
                  | (simp; omega)
              · intro _
                right
                exact hT'
          · have hT' : (scanStep st lb i).1.segmtTimer.getD p false =
                st.segmtTimer.getD p false := by
              rw [hT]; exact getD_set_ne _ _ _ hp _
            have IH := ih (scanStep st lb i).1 hlen' hscan''
              (by rw [hS, hT']; exact hinv)
            rw [hT'] at IH
            have hunf : (runEv st (SEv.scan lb i :: evs)).2 =
                (scanStep st lb i).2.2 ++
                  (runEv (scanStep st lb i).1 evs).2 := rfl
            have hcnt : (runEv st (SEv.scan lb i :: evs)).2.count p =
                (runEv (scanStep st lb i).1 evs).2.count p := by
              rw [hunf, hsp, List.count_append]
              simp [List.count_cons, Ne.symm hp]
            have hfst : (runEv st (SEv.scan lb i :: evs)).1 =
                (runEv (scanStep st lb i).1 evs).1 := rfl
            rw [hcnt, hfst]
            exact IH
        · rw [if_neg harm] at hT hsp
          have IH := ih (scanStep st lb i).1 hlen' hscan''
            (by rw [hS, hT]; exact hinv)
          rw [hT] at IH
          have hunf : (runEv st (SEv.scan lb i :: evs)).2 =
              (scanStep st lb i).2.2 ++
                (runEv (scanStep st lb i).1 evs).2 := rfl
          have hcnt : (runEv st (SEv.scan lb i :: evs)).2.count p =
              (runEv (scanStep st lb i).1 evs).2.count p := by
            rw [hunf, hsp]
            simp
          have hfst : (runEv st (SEv.scan lb i :: evs)).1 =
              (runEv (scanStep st lb i).1 evs).1 := rfl
          rw [hcnt, hfst]
          exact IH

/-- C10.  Starting from the state `read_file` produces (all `sent` and
`timer` flags false, sender.py lines 472-474), any sequence of scheduler
iterations, listener iterations and timer wakes starts at most one
retransmission-timer thread for any position `p`, and the timer-armed
flag for `p` is set exactly when the one thread was started — the flag
is set exactly once, before the thread starts, and never cleared, so
the scheduler's guards (sender.py lines 260, 283) can never spawn a
second timer for the same position.  The scan events are constrained to
in-range positions, as in the source where the scanned window lies
inside `[0, buffer_size)`. -/
theorem timer_thread_at_most_one_per_position (st0 : SState)
    (evs : List SEv) (p : ℕ)
    (hlen : st0.segmtSent.length = st0.segmtTimer.length)
    (hscan : ∀ lb i, SEv.scan lb i ∈ evs → i.toNat < st0.segmtSent.length)
    (htimer : ∀ j, st0.segmtTimer.getD j false = false) :
    (runEv st0 evs).2.count p ≤ 1 ∧
    ((runEv st0 evs).1.segmtTimer.getD p false = true ↔
      (runEv st0 evs).2.count p = 1) := by
  have h := runEv_spawn_inv p evs st0 hlen hscan
    (by rw [htimer p]; intro h; exact absurd h (by decide))
  rw [htimer p] at h
  obtain ⟨h1, h2⟩ := h
  constructor
  · simpa using h1
  · rw [h2]
    constructor
    · intro h3
      rcases h3 with h3 | h3
      · exact h3
      · exact absurd h3 (by decide)
    · intro h3
      exact Or.inl h3

/-- A one-segment post-read sender state and a small event sequence
(two scans of position 0, an ACK, a timer wake) used to witness C10. -/
def c10State : SState := read_file (senderInit 100 2) [7]

/-- The event sequence of the C10 witness. -/
def c10Evs : List SEv := [.scan 0 0, .scan 0 0, .ack 1 101, .fire 0]

/-- Witness for C10: the hypotheses are satisfiable and the theorem
applies, giving at most one timer-thread start for position 0. -/
theorem timer_thread_at_most_one_per_position_witness :
    (c10State.segmtSent.length = c10State.segmtTimer.length ∧
     (∀ lb i, SEv.scan lb i ∈ c10Evs → i.toNat < c10State.segmtSent.length) ∧
     (∀ j, c10State.segmtTimer.getD j false = false)) ∧
    (runEv c10State c10Evs).2.count 0 ≤ 1 :=
  have hscan : ∀ lb i, SEv.scan lb i ∈ c10Evs →
      i.toNat < c10State.segmtSent.length := by
    intro lb i hmem
    simp only [c10Evs, List.mem_cons, List.not_mem_nil, or_false] at hmem
    rcases hmem with h | h | h | h
    all_goals first
      | (injection h with h1 h2; subst h2; decide)
      | (injection h)
  have htimer : ∀ j, c10State.segmtTimer.getD j false = false := by
    intro j
    show ([false] : List Bool).getD j false = false
    cases j <;> rfl
  ⟨⟨by decide, hscan, htimer⟩,
   (timer_thread_at_most_one_per_position c10State c10Evs 0 (by decide)
     hscan htimer).1⟩

end STP
